import Mathlib

namespace Vibe

/-!
Verification of qqcode (the "vibe" coding-assistant CLI): a shallow
embedding of the agent core's data model, the Anthropic streaming
accumulator, the Edit tool, the generic backend's token counter and
SSE line processor, and the turn-loop / mode / compaction operations,
with theorems settling the specification's claims about them.
-/

/-- Message role, from `vibe.core.types.Role`. -/
inductive Role where
  | system
  | user
  | assistant
  | tool
deriving DecidableEq, Repr

/-- A function invocation inside a tool call: name plus serialized
arguments, from `vibe.core.types.FunctionCall`. -/
structure FunctionCall where
  name : String
  arguments : String
deriving DecidableEq, Repr

/-- A tool call proposed by the model: id, optional stream index used to
correlate streamed deltas, and the function, from `vibe.core.types.ToolCall`. -/
structure ToolCall where
  id : String
  index : Option Nat := none
  function : FunctionCall
deriving DecidableEq, Repr

/-- One conversational message, from `vibe.core.types.LLMMessage`. -/
structure LLMMessage where
  role : Role
  content : Option String := none
  reasoning_content : Option String := none
  thinking_signature : Option String := none
  tool_calls : List ToolCall := []
  tool_call_id : Option String := none
deriving DecidableEq, Repr

/-- Token usage for one backend round trip, from `vibe.core.types.LLMUsage`. -/
structure LLMUsage where
  prompt_tokens : Nat
  completion_tokens : Nat
deriving DecidableEq, Repr

/-- A normalized backend chunk, from `vibe.core.types.LLMChunk`. -/
structure LLMChunk where
  message : LLMMessage
  usage : LLMUsage
  finish_reason : Option String := none
deriving DecidableEq, Repr

/-- Agent mode, from `vibe.core.types.AgentMode`. -/
inductive AgentMode where
  | INTERACTIVE
  | AUTO_APPROVE
  | PLAN
deriving DecidableEq, Repr

/-! ## Anthropic streaming accumulation
Embedding of the event loop of
`AnthropicSDKBackend.complete_streaming` in
`src/vibe/core/llm/backend/anthropic_sdk.py` (lines 545-646): the
incremental events of one streamed response are folded into chunks,
accumulating tool-call input per stream index. -/

/-- The kind of content block opened by a `content_block_start` event. -/
inductive ContentBlock where
  | text
  | thinking
  | tool_use (id : String) (name : String)
deriving DecidableEq, Repr

/-- The provider stream events `complete_streaming` dispatches on. -/
inductive StreamEvent where
  | message_start (input_tokens : Nat)
  | content_block_start (index : Nat) (block : ContentBlock)
  | text_delta (text : String)
  | thinking_delta (thinking : String)
  | signature_delta (signature : String)
  | input_json_delta (index : Nat) (partial_json : String)
  | content_block_stop (index : Nat)
  | message_delta (output_tokens : Nat) (stop_reason : Option String)
deriving DecidableEq, Repr

/-- The in-progress entry of `current_tool_calls[index]`: the dict
`\x7b"id": ..., "name": ..., "input": ...\x7d` built at
`content_block_start` and grown by `input_json_delta`. -/
structure ToolAcc where
  id : String
  name : String
  input : String
deriving DecidableEq, Repr

/-- Association-list model of the Python dict `current_tool_calls`. -/
abbrev TCDict := List (Nat × ToolAcc)

/-- Dict lookup: `index in current_tool_calls` / `current_tool_calls[index]`. -/
def TCDict.lookup (d : TCDict) (i : Nat) : Option ToolAcc :=
  match d with
  | [] => none
  | (j, acc) :: rest => if j = i then some acc else TCDict.lookup rest i

/-- Dict insertion `current_tool_calls[index] = entry` (replacing any
existing entry for that key). -/
def TCDict.insert (d : TCDict) (i : Nat) (acc : ToolAcc) : TCDict :=
  match d with
  | [] => [(i, acc)]
  | (j, a) :: rest => if j = i then (i, acc) :: rest else (j, a) :: TCDict.insert rest i acc

/-- Dict update of the `input` field:
`current_tool_calls[index]["input"] += partial_json`. -/
def TCDict.appendInput (d : TCDict) (i : Nat) (s : String) : TCDict :=
  match d with
  | [] => []
  | (j, a) :: rest =>
      if j = i then (j, { a with input := a.input ++ s }) :: rest
      else (j, a) :: TCDict.appendInput rest i s

/-- Dict deletion `del current_tool_calls[index]`. -/
def TCDict.erase (d : TCDict) (i : Nat) : TCDict :=
  match d with
  | [] => []
  | (j, a) :: rest => if j = i then rest else (j, a) :: TCDict.erase rest i

/-- Mutable state threaded through the streaming loop:
`current_tool_calls`, `total_input_tokens`, `total_output_tokens`. -/
structure StreamState where
  current_tool_calls : TCDict
  total_input_tokens : Nat
  total_output_tokens : Nat
deriving Repr

/-- Initial state of the streaming loop. -/
def StreamState.init : StreamState :=
  { current_tool_calls := [], total_input_tokens := 0, total_output_tokens := 0 }

/-- One iteration of the `async for event in stream` loop of
`complete_streaming`: consumes one event, returns the new state and the
chunks yielded for that event (zero or one). -/
def streamStep (st : StreamState) (e : StreamEvent) : StreamState × List LLMChunk :=
  match e with
  | .message_start input_tokens =>
      ({ st with total_input_tokens := input_tokens }, [])
  | .content_block_start index block =>
      match block with
      | .tool_use id name =>
          ({ st with current_tool_calls :=
              st.current_tool_calls.insert index { id := id, name := name, input := "" } }, [])
      | _ => (st, [])
  | .text_delta text =>
      (st, [{ message := { role := .assistant, content := some text },
              usage := { prompt_tokens := 0, completion_tokens := 0 },
              finish_reason := none }])
  | .thinking_delta thinking =>
      (st, [{ message := { role := .assistant, reasoning_content := some thinking },
              usage := { prompt_tokens := 0, completion_tokens := 0 },
              finish_reason := none }])
  | .signature_delta signature =>
      (st, [{ message := { role := .assistant, thinking_signature := some signature },
              usage := { prompt_tokens := 0, completion_tokens := 0 },
              finish_reason := none }])
  | .input_json_delta index partial_json =>
      match st.current_tool_calls.lookup index with
      | some _ =>
          ({ st with current_tool_calls :=
              st.current_tool_calls.appendInput index partial_json }, [])
      | none => (st, [])
  | .content_block_stop index =>
      match st.current_tool_calls.lookup index with
      | some tc_data =>
          ({ st with current_tool_calls := st.current_tool_calls.erase index },
           [{ message := { role := .assistant, content := none,
                            tool_calls := [ToolCall.mk tc_data.id (some index)
                              (FunctionCall.mk tc_data.name tc_data.input)] },
              usage := { prompt_tokens := 0, completion_tokens := 0 },
              finish_reason := none }])
      | none => (st, [])
  | .message_delta output_tokens stop_reason =>
      ({ st with total_output_tokens := output_tokens },
       [{ message := { role := .assistant, content := some "" },
          usage := { prompt_tokens := st.total_input_tokens,
                     completion_tokens := output_tokens },
          finish_reason := stop_reason }])

/-- Folding the streaming loop over a list of events from a given state,
collecting all yielded chunks in order. -/
def streamRun (st : StreamState) : List StreamEvent → List LLMChunk
  | [] => []
  | e :: rest =>
      let (st2, out) := streamStep st e
      out ++ streamRun st2 rest

/-- The whole of `complete_streaming` on an event list, from the
initial state. -/
def complete_streaming (events : List StreamEvent) : List LLMChunk :=
  streamRun StreamState.init events

/-- The chunks of a stream that carry at least one tool call: what the
agent sees as tool-call events. -/
def toolCallChunks (chunks : List LLMChunk) : List LLMChunk :=
  chunks.filter (fun c => ¬ c.message.tool_calls.isEmpty)

/-- Concatenation of a list of string fragments, in order. -/
def concatStrings : List String → String
  | [] => ""
  | s :: rest => s ++ concatStrings rest

/-! ## The Edit tool
Embedding of `Edit.run` in `src/vibe/core/tools/builtins/edit.py`
(lines 85-123). File contents are lists of characters; the Python string
operations `in`, `count` (non-overlapping occurrences) and `replace`
(leftmost non-overlapping, optionally limited to one) are modelled
explicitly. -/

/-- Python substring membership `sub in s` (the empty string is a
substring of everything). -/
def pyContains (sub : List Char) : List Char → Bool
  | [] => sub.isEmpty
  | c :: rest => sub.isPrefixOf (c :: rest) || pyContains sub rest

/-- Scanning loop of Python `s.count(sub)` for non-empty `sub`: counts
non-overlapping occurrences left to right, skipping past each match.
Fuel bounds the recursion; `fuel = s.length` always suffices because
every step consumes at least one character. -/
def pyCountPosAux (sub : List Char) : Nat → List Char → Nat
  | 0, _ => 0
  | _ + 1, [] => 0
  | fuel + 1, c :: rest =>
      if 1 ≤ sub.length ∧ sub.isPrefixOf (c :: rest) then
        pyCountPosAux sub fuel (rest.drop (sub.length - 1)) + 1
      else
        pyCountPosAux sub fuel rest

/-- Python `s.count(sub)` for non-empty `sub`. -/
def pyCountPos (sub s : List Char) : Nat :=
  pyCountPosAux sub s.length s

/-- Python `s.count(sub)` including the empty-pattern convention
`s.count("") == len(s) + 1`. -/
def pyCount (sub s : List Char) : Nat :=
  if sub = [] then s.length + 1 else pyCountPos sub s

/-- Scanning loop of Python `s.replace(old, new, n)`: replaces up to `n`
leftmost non-overlapping occurrences of `old` by `new`, with Python's
empty-pattern convention of inserting `new` at every position. Fuel
bounds the recursion; `fuel = s.length + 1` always suffices. -/
def pyReplaceAux (old new : List Char) : Nat → Nat → List Char → List Char
  | 0, _, s => s
  | _ + 1, 0, s => s
  | _ + 1, _ + 1, [] => if old = [] then new else []
  | fuel + 1, n + 1, c :: rest =>
      if old = [] then new ++ c :: pyReplaceAux old new fuel n rest
      else if old.isPrefixOf (c :: rest) then
        new ++ pyReplaceAux old new fuel n (rest.drop (old.length - 1))
      else c :: pyReplaceAux old new fuel (n + 1) rest

/-- Python `s.replace(old, new)` (no limit): a replacement budget of
`len(s) + 1` covers every possible occurrence. -/
def pyReplaceAll (s old new : List Char) : List Char :=
  pyReplaceAux old new (s.length + 1) (s.length + 1) s

/-- Python `s.replace(old, new, 1)`. -/
def pyReplaceOne (s old new : List Char) : List Char :=
  pyReplaceAux old new (s.length + 1) 1 s

/-- Arguments of the Edit tool, from `EditArgs` in
`src/vibe/core/tools/builtins/edit.py`. -/
structure EditArgs where
  file_path : String
  old_string : List Char
  new_string : List Char
  replace_all : Bool := false

/-- Result of a successful edit, from `EditResult`. -/
structure EditResult where
  file : String
  old_string : List Char
  new_string : List Char
  replacements : Nat
deriving DecidableEq

/-- Outcome of `Edit.run`: either the new file content plus the
returned `EditResult`, or a raised `ToolError`. -/
inductive EditOutcome where
  | ok (newContent : List Char) (result : EditResult)
  | error (msg : String)
deriving DecidableEq

/-- `Edit.run` on the content already read from the target file: the
membership check, the occurrence count, the uniqueness check, and the
replacement, in source order. The file write happens only on the `ok`
path, after every check has passed. -/
def Edit.run (content : List Char) (args : EditArgs) : EditOutcome :=
  if ¬ pyContains args.old_string content then
    .error "old_string not found in file"
  else
    let occurrences := pyCount args.old_string content
    if occurrences > 1 ∧ ¬ args.replace_all then
      .error "old_string appears multiple times in file"
    else if args.replace_all then
      .ok (pyReplaceAll content args.old_string args.new_string)
        { file := args.file_path, old_string := args.old_string,
          new_string := args.new_string, replacements := occurrences }
    else
      .ok (pyReplaceOne content args.old_string args.new_string)
        { file := args.file_path, old_string := args.old_string,
          new_string := args.new_string, replacements := 1 }

/-- The target file's content after `Edit.run`: written only when the
run succeeded, untouched when a `ToolError` was raised. -/
def Edit.fileAfter (content : List Char) (args : EditArgs) : List Char :=
  match Edit.run content args with
  | .ok newContent _ => newContent
  | .error _ => content

/-! ## Token counting
Embedding of `GenericBackend.count_tokens` in
`src/vibe/core/llm/backend/generic.py` (lines 714-741): a copy of the
caller's message list is probed, with an empty user message appended
when the list is empty or does not end in a user message, and the
prompt-token count of a non-streaming completion on the probe is
returned. The backend round trip is abstracted as a function from the
probe list to the (optional) usage of the completion. -/

/-- The empty user-role probe message `LLMMessage(role=Role.user, content="")`. -/
def emptyUserMessage : LLMMessage :=
  { role := Role.user, content := some "" }

/-- The probe list `probe_messages` built by `count_tokens`: a copy of
`messages`, with the probe message appended exactly when the list is
empty or its last message is not user-role. -/
def probeMessages (messages : List LLMMessage) : List LLMMessage :=
  if messages.isEmpty ∨ ¬ (messages.getLast?.map (fun m => m.role) = some Role.user) then
    messages ++ [emptyUserMessage]
  else messages

/-- `GenericBackend.count_tokens`, with the non-streaming `complete`
round trip abstracted as an oracle returning the completion's usage (or
`none`, which trips the source's assertion that usage is present). -/
def count_tokens (complete : List LLMMessage → Option LLMUsage)
    (messages : List LLMMessage) : Except String Nat :=
  match complete (probeMessages messages) with
  | none => .error "Usage should be present in non-streaming completions"
  | some usage => .ok usage.prompt_tokens

/-! ## SSE stream line processing
Embedding of `GenericBackend._make_streaming_request` in
`src/vibe/core/llm/backend/generic.py` (lines 688-712): each line of the
HTTP stream is skipped when blank, asserted to contain the `": "`
separator, split at the first colon into key and value, ignored unless
the key is `data`, terminated on the value `[DONE]`, and otherwise
parsed and yielded. JSON parsing is abstracted as a function applied to
the stripped value. -/

/-- Python `str.strip()`: whitespace removed from both ends. -/
def pyStrip (s : List Char) : List Char :=
  ((s.dropWhile Char.isWhitespace).reverse.dropWhile Char.isWhitespace).reverse

/-- Outcome of consuming the stream's lines: the payloads yielded, and
whether iteration ended normally (`[DONE]` or end of stream) or died on
the source's assertion. -/
inductive SSEOutcome (α : Type) where
  | done (payloads : List α)
  | assertFailed (payloads : List α) (line : List Char)
deriving DecidableEq

/-- Prepend one yielded payload to an outcome. -/
def SSEOutcome.consPayload {α : Type} (p : α) : SSEOutcome α → SSEOutcome α
  | .done ps => .done (p :: ps)
  | .assertFailed ps l => .assertFailed (p :: ps) l

/-- The `async for line in response.aiter_lines()` loop of
`_make_streaming_request`, over a list of lines. -/
def processLines {α : Type} (parse : List Char → α) : List (List Char) → SSEOutcome α
  | [] => .done []
  | line :: rest =>
      if pyStrip line = [] then processLines parse rest
      else if ¬ pyContains (':' :: ' ' :: []) line then .assertFailed [] line
      else
        let delim_index := line.findIdx (fun c => c == ':')
        let key := line.take delim_index
        let value := line.drop (delim_index + 2)
        if key ≠ "data".toList then processLines parse rest
        else if value = "[DONE]".toList then .done []
        else (processLines parse rest).consPayload (parse (pyStrip value))

/-! ## Agent core: tool dispatch, modes, budget, plan approval, compaction
The agent core module `vibe/core/agent.py` is not among the sources
available here — only its tests (`src/tests/test_plan_mode_system_prompt.py`)
and callers (`src/vibe/core/programmatic.py`,
`src/vibe/cli/textual_ui/app.py`) are. The missing operations are
modelled from the spec, faithful to its words, and marked as such. -/

/-- Outcome of one proposed tool call after the approval gate and, when
approved, execution: executed successfully, execution raised a
ToolError, or rejected by the gate with a cancellation reason. -/
inductive ApprovalOutcome where
  | approved (result : String)
  | errored (err : String)
  | rejected (reason : String)
deriving DecidableEq, Repr

/-- Modelled from the spec: the terminal state of every ToolCall is an
appended `tool`-role message carrying the originating call id; rejection
becomes synthetic tool-result content carrying the cancellation reason,
and a ToolError becomes the error text (spec section 3,
ToolCall/ToolResult lifecycle; section 7 b-c). Missing source:
`vibe/core/agent.py` (tool dispatch). -/
def toolResultMessage (tc : ToolCall) (o : ApprovalOutcome) : LLMMessage :=
  { role := Role.tool,
    tool_call_id := some tc.id,
    content := some (match o with
      | .approved r => r
      | .errored e => e
      | .rejected reason => reason) }

/-- Modelled from the spec: all pending tool calls of one assistant turn
are processed sequentially in emission order, each producing exactly one
tool message (spec sections 4.1 Approval gating and 3). Missing source:
`vibe/core/agent.py` (turn loop). -/
def processToolCalls (outcome : ToolCall → ApprovalOutcome)
    (tcs : List ToolCall) : List LLMMessage :=
  tcs.map (fun tc => toolResultMessage tc (outcome tc))

/-- Modelled from the spec: one completed tool-using turn appends the
assistant message and then its tool results, before any next assistant
message (spec section 4.1). Missing source: `vibe/core/agent.py`. -/
def appendTurn (history : List LLMMessage) (assistantMsg : LLMMessage)
    (outcome : ToolCall → ApprovalOutcome) : List LLMMessage :=
  history ++ assistantMsg :: processToolCalls outcome assistantMsg.tool_calls

/-- Modelled from the spec: `render_system_prompt(mode)` — the pure
system-prompt template with the mode-specific instruction block appended
exactly in PLAN mode (spec sections 4.1 Mode switching and 9; behavior
pinned by `src/tests/test_plan_mode_system_prompt.py`). Missing source:
`vibe/core/agent.py` / `vibe/core/prompts`. -/
def render_system_prompt (m : AgentMode) : String :=
  "You are a coding assistant." ++
    (match m with
     | AgentMode.PLAN => " PLAN MODE: only read-only tools may execute."
     | _ => "")

/-- The system-prompt message for a mode. -/
def systemMessage (m : AgentMode) : LLMMessage :=
  { role := Role.system, content := some (render_system_prompt m) }

/-- A plain user message carrying the prompt text. -/
def userMessage (prompt : String) : LLMMessage :=
  { role := Role.user, content := some prompt }

/-- Modelled from the spec: the agent state the mode setter and turn
loop act on — the current mode and the owned conversation history
(spec sections 3-4). Missing source: `vibe/core/agent.py`. -/
structure AgentState where
  mode : AgentMode
  messages : List LLMMessage
deriving DecidableEq, Repr

/-- Modelled from the spec: the `agent.mode = X` setter — setting the
current value is a no-op preserving the system-prompt object; a new
value regenerates message index 0 only, leaving the rest untouched
(spec section 4.1 Mode switching; pinned by
`src/tests/test_plan_mode_system_prompt.py`). Missing source:
`vibe/core/agent.py`. -/
def setMode (st : AgentState) (m : AgentMode) : AgentState :=
  if m = st.mode then st
  else { mode := m, messages := systemMessage m :: st.messages.tail }

/-- Result of the programmatic agent loop: a normal turn end, or the
distinguishable conversation-limit condition carrying the partial
assistant text (spec sections 3 Budget and 6;
`ConversationLimitException` raised in `src/vibe/core/programmatic.py`
lines 212-215). -/
inductive LoopResult where
  | completed (history : List LLMMessage) (finalText : Option String)
  | conversationLimit (history : List LLMMessage) (partialText : Option String)
deriving DecidableEq, Repr

/-- Modelled from the spec: the turn loop under a `max_turns` budget —
each iteration is one assistant round trip; a response without tool
calls ends the turn; otherwise the tool results are appended and the
budget is checked after the completed turn, exceeding it raising the
conversation-limit condition with history preserved (spec sections 3
Budget and 4.1). `fuel` bounds the rounds so the model is executable.
Missing source: `vibe/core/agent.py`. -/
def agentLoop (respond : List LLMMessage → LLMMessage)
    (outcome : ToolCall → ApprovalOutcome) (maxTurns : Option Nat) :
    Nat → List LLMMessage → Nat → LoopResult
  | 0, history, _ => .completed history none
  | fuel + 1, history, turns =>
      let amsg := respond history
      if amsg.tool_calls.isEmpty then
        .completed (history ++ [amsg]) amsg.content
      else
        let history2 := history ++ amsg :: processToolCalls outcome amsg.tool_calls
        let turns2 := turns + 1
        match maxTurns with
        | some mt =>
            if mt ≤ turns2 then .conversationLimit history2 amsg.content
            else agentLoop respond outcome maxTurns fuel history2 turns2
        | none => agentLoop respond outcome maxTurns fuel history2 turns2

/-- Modelled from the spec: `act(prompt)` — append the user message onto
the system prompt and drive the loop (spec section 4.1). Missing source:
`vibe/core/agent.py`. -/
def act (respond : List LLMMessage → LLMMessage)
    (outcome : ToolCall → ApprovalOutcome) (maxTurns : Option Nat)
    (mode : AgentMode) (prompt : String) (fuel : Nat) : LoopResult :=
  agentLoop respond outcome maxTurns fuel
    [systemMessage mode, userMessage prompt] 0

/-- A parsed stdin plan-approval response: the fields read by
`plan_approval_callback` in `src/vibe/core/programmatic.py` (lines
127-139); `none` stands for a blank response line. -/
structure PlanStdinResponse where
  approved : Bool
  mode : Option String
  feedback : Option String
deriving DecidableEq, Repr

/-- The resolution logic of `plan_approval_callback` from
`src/vibe/core/programmatic.py` (lines 104-141): approval resolves to
`(true, mode-if-provided)`, rejection to `(false, feedback-or-default)`,
and a blank stdin line to a rejection with the no-response text. -/
def plan_approval_callback : Option PlanStdinResponse → Bool × Option String
  | none => (false, some "No response received from stdin")
  | some r =>
      if r.approved then
        match r.mode with
        | some m => (true, some m)
        | none => (true, none)
      else (false, some (r.feedback.getD "User rejected the plan"))

/-- `_mode_to_agent_mode` from `src/vibe/core/programmatic.py` (lines
26-34), totalized with `none` outside the `ExecutionMode` literals. -/
def _mode_to_agent_mode : String → Option AgentMode
  | "plan" => some AgentMode.PLAN
  | "interactive" => some AgentMode.INTERACTIVE
  | "auto-approve" => some AgentMode.AUTO_APPROVE
  | _ => none

/-- Modelled from the spec: the agent's handling of a `submit_plan`
invocation — the Plan Approval Gate's resolution decides the next agent
mode before the turn continues, and a request-revision resolution
injects the feedback as the tool's result content so the model revises
and calls `submit_plan` again (spec section 4.1 Plan mode
submit/approval). Missing source: `vibe/core/agent.py`. -/
def handlePlanResolution (st : AgentState) (tc : ToolCall)
    (resolution : Bool × Option String) : AgentState × LLMMessage :=
  match resolution with
  | (true, modeStr) =>
      let nextMode := (modeStr.bind _mode_to_agent_mode).getD st.mode
      (setMode st nextMode,
       toolResultMessage tc (ApprovalOutcome.approved "Plan approved."))
  | (false, feedback) =>
      (st, toolResultMessage tc
        (ApprovalOutcome.rejected (feedback.getD "Please revise the plan.")))

/-- Modelled from the spec: the History Compactor — given history and a
target size, produce a shorter history preserving the leading system
message, a summarizing assistant message replacing a prefix of the
conversation, followed by the most recent messages; a history already
within the target is returned untouched (spec section 4.2). Missing
source: the compactor module of `vibe/core`. -/
def compact (threshold : Nat) (summarize : List LLMMessage → String)
    (history : List LLMMessage) : List LLMMessage :=
  match history with
  | [] => []
  | sys :: rest =>
      if rest.length ≤ threshold then sys :: rest
      else
        sys :: { role := Role.assistant, content := some (summarize rest) } ::
          rest.drop (rest.length - (threshold - 1))

/-- The pieces of `VibeApp` state read by `_compact_history`:
`_agent_running` and the agent's message history (`none` when no agent
exists yet), from `src/vibe/cli/textual_ui/app.py`. -/
structure AppState where
  agent_running : Bool
  agent_messages : Option (List LLMMessage)
deriving DecidableEq, Repr

/-- `_compact_history` from `src/vibe/cli/textual_ui/app.py` (lines
781-830): while the agent is processing, an error message is surfaced
and the method returns at once without compacting; likewise with no
agent or a history of at most one message; otherwise `agent.compact()`
(abstracted as `compactFn`) runs. Returns the new app state and the
surfaced error, if any. -/
def _compact_history (compactFn : List LLMMessage → List LLMMessage)
    (app : AppState) : AppState × Option String :=
  if app.agent_running then
    (app, some "Cannot compact while agent is processing. Please wait.")
  else
    match app.agent_messages with
    | none => (app, some "No conversation history to compact yet.")
    | some msgs =>
        if msgs.length ≤ 1 then
          (app, some "No conversation history to compact yet.")
        else
          ({ app with agent_messages := some (compactFn msgs) }, none)

/-! ## Theorems settling the claims -/

/-- Folding a run of `input_json_delta` events for index `i` over a state
whose only accumulating tool call is at `i` concatenates the fragments
onto that entry's `input` and yields nothing. -/
theorem streamRun_json_deltas (frags : List String) (i : Nat) (acc : ToolAcc)
    (tin tout : Nat) (rest : List StreamEvent) :
    streamRun ⟨[(i, acc)], tin, tout⟩
      (frags.map (StreamEvent.input_json_delta i) ++ rest) =
    streamRun ⟨[(i, { acc with input := acc.input ++ concatStrings frags })], tin, tout⟩
      rest := by
  induction frags generalizing acc with
  | nil => simp [concatStrings]
  | cons f fs ih =>
      simp only [List.map_cons, List.cons_append]
      simp [streamRun, streamStep, TCDict.lookup, TCDict.appendInput]
      rw [ih]
      simp [concatStrings, String.append_assoc]

/-- C2: during streaming accumulation, tool-call argument deltas for index
0 are concatenated until that index's `content_block_stop` arrives, and
the completed ToolCall — carrying the block's name and the full
concatenated argument string — is yielded exactly once. -/
theorem complete_streaming_accumulates_tool_call
    (id name : String) (frags : List String) :
    toolCallChunks (complete_streaming
      ([StreamEvent.content_block_start 0 (ContentBlock.tool_use id name)] ++
        frags.map (StreamEvent.input_json_delta 0) ++
        [StreamEvent.content_block_stop 0])) =
    [{ message := { role := .assistant, content := none,
                    tool_calls := [ToolCall.mk id (some 0)
                      (FunctionCall.mk name (concatStrings frags))] },
       usage := { prompt_tokens := 0, completion_tokens := 0 },
       finish_reason := none }] := by
  unfold complete_streaming StreamState.init
  rw [List.append_assoc, List.singleton_append]
  simp only [streamRun, streamStep, TCDict.insert]
  rw [streamRun_json_deltas]
  simp [streamRun, streamStep, TCDict.lookup, TCDict.erase, toolCallChunks]

/-- The empty pattern is a substring of every string, as in Python. -/
theorem pyContains_nil (s : List Char) : pyContains [] s = true := by
  cases s with
  | nil => rfl
  | cons c rest => simp [pyContains, List.isPrefixOf]

/-- With enough fuel, the occurrence-count scan finds an occurrence
exactly when the membership scan does. -/
theorem pyCountPosAux_pos_iff (sub : List Char) (hsub : sub ≠ []) (fuel : Nat) :
    ∀ s : List Char, s.length ≤ fuel →
      (0 < pyCountPosAux sub fuel s ↔ pyContains sub s = true) := by
  induction fuel with
  | zero =>
      intro s hs
      have : s = [] := List.length_eq_zero.mp (Nat.le_zero.mp hs)
      subst this
      simp [pyCountPosAux, pyContains, List.isEmpty_iff, hsub]
  | succ fuel ih =>
      intro s hs
      cases s with
      | nil => simp [pyCountPosAux, pyContains, List.isEmpty_iff, hsub]
      | cons c rest =>
          have hlen : 1 ≤ sub.length := by
            cases sub with
            | nil => exact absurd rfl hsub
            | cons a l => simp
          by_cases hp : sub.isPrefixOf (c :: rest) = true
          · simp [pyCountPosAux, pyContains, hlen, hp]
          · have hp' : sub.isPrefixOf (c :: rest) = false := by
              cases h : sub.isPrefixOf (c :: rest) with
              | false => rfl
              | true => exact absurd h hp
            have hrest : rest.length ≤ fuel := by
              simp only [List.length_cons] at hs
              omega
            simp only [pyCountPosAux, pyContains, hp', Bool.false_or]
            rw [if_neg (by simp [hp'])]
            exact ih rest hrest

/-- The membership check `old_string in content` succeeds exactly when
the occurrence count is positive. -/
theorem pyContains_iff_pyCount_pos (sub s : List Char) :
    pyContains sub s = true ↔ 0 < pyCount sub s := by
  by_cases hsub : sub = []
  · subst hsub
    simp [pyContains_nil, pyCount]
  · rw [pyCount, if_neg hsub, pyCountPos]
    exact (pyCountPosAux_pos_iff sub hsub s.length s le_rfl).symm

/-- C8: `Edit.run` raises a ToolError — leaving the file content
unchanged — when `old_string` is absent or, without `replace_all`, when
it occurs more than once; with a unique occurrence it writes the
single-replacement content and returns `replacements = 1`; with
`replace_all` it writes the replace-every-occurrence content and returns
the occurrence count; and on every error path the file is unchanged. -/
theorem edit_run_spec (content : List Char) (args : EditArgs) :
    (pyCount args.old_string content = 0 →
        Edit.run content args = .error "old_string not found in file" ∧
        Edit.fileAfter content args = content) ∧
    (1 < pyCount args.old_string content → args.replace_all = false →
        Edit.run content args = .error "old_string appears multiple times in file" ∧
        Edit.fileAfter content args = content) ∧
    (pyCount args.old_string content = 1 → args.replace_all = false →
        Edit.run content args =
          .ok (pyReplaceOne content args.old_string args.new_string)
            { file := args.file_path, old_string := args.old_string,
              new_string := args.new_string, replacements := 1 }) ∧
    (0 < pyCount args.old_string content → args.replace_all = true →
        Edit.run content args =
          .ok (pyReplaceAll content args.old_string args.new_string)
            { file := args.file_path, old_string := args.old_string,
              new_string := args.new_string,
              replacements := pyCount args.old_string content }) ∧
    (∀ msg, Edit.run content args = .error msg →
        Edit.fileAfter content args = content) := by
  refine ⟨?_, ?_, ?_, ?_, ?_⟩
  · intro h0
    have hc : ¬ pyContains args.old_string content = true := by
      rw [pyContains_iff_pyCount_pos, h0]
      omega
    have hrun : Edit.run content args = .error "old_string not found in file" := by
      simp [Edit.run, hc]
    exact ⟨hrun, by simp [Edit.fileAfter, hrun]⟩
  · intro h1 hra
    have hc : pyContains args.old_string content = true := by
      rw [pyContains_iff_pyCount_pos]
      omega
    have hrun : Edit.run content args =
        .error "old_string appears multiple times in file" := by
      simp [Edit.run, hc, hra]
      omega
    exact ⟨hrun, by simp [Edit.fileAfter, hrun]⟩
  · intro h1 hra
    have hc : pyContains args.old_string content = true := by
      rw [pyContains_iff_pyCount_pos]
      omega
    simp [Edit.run, hc, hra, h1]
  · intro h0 hra
    have hc : pyContains args.old_string content = true := by
      rw [pyContains_iff_pyCount_pos]
      omega
    simp [Edit.run, hc, hra]
  · intro msg hrun
    simp [Edit.fileAfter, hrun]

/-- Instantiation of `edit_run_spec` on a concrete file: in `"aba"`, the
unique occurrence of `"b"` is replaced by `"X"`, writing `"aXa"`. -/
theorem edit_run_spec_witness :
    Edit.run "aba".toList
      { file_path := "f", old_string := "b".toList, new_string := "X".toList } =
    EditOutcome.ok "aXa".toList
      { file := "f", old_string := "b".toList, new_string := "X".toList,
        replacements := 1 } := by
  have h := (edit_run_spec "aba".toList
      { file_path := "f", old_string := "b".toList,
        new_string := "X".toList }).2.2.1 (by decide) rfl
  exact h.trans (by decide)

/-- C9: `count_tokens` probes a copy of the caller's list — the probe
extends `messages` by at most the one empty user message, appended
exactly when the list is empty or does not end in a user-role message —
and returns exactly the prompt-token count the completion reported on
the probe. -/
theorem count_tokens_spec (complete : List LLMMessage → Option LLMUsage)
    (messages : List LLMMessage) :
    (probeMessages messages = messages ∨
      probeMessages messages = messages ++ [emptyUserMessage]) ∧
    (probeMessages messages = messages ↔
      ∃ last, messages.getLast? = some last ∧ last.role = Role.user) ∧
    (probeMessages messages = messages ++ [emptyUserMessage] ↔
      (messages = [] ∨ ¬ (messages.getLast?.map (fun m => m.role) = some Role.user))) ∧
    (∀ u, complete (probeMessages messages) = some u →
      count_tokens complete messages = .ok u.prompt_tokens) := by
  by_cases hcond :
      messages.isEmpty ∨ ¬ (messages.getLast?.map (fun m => m.role) = some Role.user)
  · have hprobe : probeMessages messages = messages ++ [emptyUserMessage] := by
      simp only [probeMessages, if_pos hcond]
    refine ⟨Or.inr hprobe, ?_, ?_, ?_⟩
    · constructor
      · intro heq
        exfalso
        have : (messages ++ [emptyUserMessage]).length = messages.length := by
          rw [← hprobe, heq]
        simp at this
      · rintro ⟨last, hlast, hrole⟩
        exfalso
        rcases hcond with hemp | hne
        · rw [List.isEmpty_iff.mp hemp] at hlast
          simp at hlast
        · exact hne (by rw [hlast]; simp [hrole])
    · constructor
      · intro _
        rcases hcond with hemp | hne
        · exact Or.inl (List.isEmpty_iff.mp hemp)
        · exact Or.inr hne
      · intro _
        exact hprobe
    · intro u hu
      simp [count_tokens, hu]
  · have hprobe : probeMessages messages = messages := by
      simp only [probeMessages, if_neg hcond]
    push_neg at hcond
    obtain ⟨hne, hrole⟩ := hcond
    refine ⟨Or.inl hprobe, ?_, ?_, ?_⟩
    · constructor
      · intro _
        cases hlast : messages.getLast? with
        | none =>
            rw [hlast] at hrole
            simp at hrole
        | some last =>
            refine ⟨last, rfl, ?_⟩
            rw [hlast] at hrole
            simpa using hrole
      · intro _
        exact hprobe
    · constructor
      · intro heq
        exfalso
        have : messages.length = (messages ++ [emptyUserMessage]).length := by
          rw [← heq, hprobe]
        simp at this
      · rintro (hemp | hnrole)
        · exact absurd (by simp [hemp] : messages.isEmpty = true) (by simp [hne])
        · exact absurd hrole hnrole
    · intro u hu
      simp [count_tokens, hu]

/-- Instantiation of `count_tokens_spec`: on a single assistant-role
message the probe appends the empty user message, and the reported
prompt-token count is returned. -/
theorem count_tokens_spec_witness :
    count_tokens
      (fun probe => some { prompt_tokens := probe.length, completion_tokens := 0 })
      [{ role := Role.assistant, content := some "hi" }] = .ok 2 := by
  have h := (count_tokens_spec
      (fun probe => some { prompt_tokens := probe.length, completion_tokens := 0 })
      [{ role := Role.assistant, content := some "hi" }]).2.2.2
      { prompt_tokens := 2, completion_tokens := 0 } (by decide)
  exact h

/-- `line.find(":")` on a line whose key part has no colon lands exactly
at the end of the key. -/
theorem findIdx_colon (key tail : List Char) (h : ∀ c ∈ key, c ≠ ':') :
    (key ++ ':' :: tail).findIdx (fun c => c == ':') = key.length := by
  induction key with
  | nil => simp [List.findIdx_cons]
  | cons a l ih =>
      have ha : (a == ':') = false := by
        simp only [beq_eq_false_iff_ne]
        exact h a (List.mem_cons_self a l)
      simp only [List.cons_append, List.findIdx_cons, ha, cond_false, List.length_cons]
      rw [ih (fun c hc => h c (List.mem_cons_of_mem a hc))]

/-- A pattern occurs in any string built around it. -/
theorem pyContains_around (sub pre suf : List Char) :
    pyContains sub (pre ++ sub ++ suf) = true := by
  induction pre with
  | nil =>
      cases hs : sub ++ suf with
      | nil =>
          have : sub = [] := by
            cases sub with
            | nil => rfl
            | cons a l => simp at hs
          simp [this, pyContains_nil]
      | cons c rest =>
          have hpre : sub.isPrefixOf (sub ++ suf) = true := by
            induction sub with
            | nil => simp [List.isPrefixOf]
            | cons a l ihs => simp [List.isPrefixOf, ihs]
          rw [List.nil_append, hs] at *
          simp [pyContains, hpre]
  | cons a l ih =>
      simp only [List.cons_append, pyContains, Bool.or_eq_true]
      exact Or.inr ih

/-- A line containing a non-whitespace character does not strip to
nothing. -/
theorem pyStrip_ne_nil_of_mem (line : List Char) (c : Char) (hc : c ∈ line)
    (hw : c.isWhitespace = false) : pyStrip line ≠ [] := by
  intro hnil
  have h1 : (line.dropWhile Char.isWhitespace).reverse.dropWhile Char.isWhitespace = [] := by
    have := congrArg List.reverse hnil
    simpa [pyStrip] using this
  have hmem : c ∈ line.dropWhile Char.isWhitespace := by
    have hsplit : line.takeWhile Char.isWhitespace ++ line.dropWhile Char.isWhitespace = line :=
      List.takeWhile_append_dropWhile Char.isWhitespace line
    rw [← hsplit] at hc
    rcases List.mem_append.mp hc with htk | hdp
    · exact absurd (List.mem_takeWhile_imp htk) (by simp [hw])
    · exact hdp
  have hall := List.dropWhile_eq_nil_iff.mp h1
  have : c.isWhitespace = true := hall c (List.mem_reverse.mpr hmem)
  rw [hw] at this
  exact Bool.false_ne_true this

/-- C10: one step of the SSE line loop — a blank line is skipped; a
non-blank line without the `": "` separator fails the assertion; a
`key: value` line is skipped when the key is not `data`, terminates the
stream when the value is `[DONE]`, and otherwise yields the parse of the
stripped value before the rest of the stream's payloads. -/
theorem processLines_spec {α : Type} (parse : List Char → α)
    (line : List Char) (rest : List (List Char)) (key value : List Char) :
    (pyStrip line = [] → processLines parse (line :: rest) = processLines parse rest) ∧
    (pyStrip line ≠ [] → pyContains (':' :: ' ' :: []) line = false →
        processLines parse (line :: rest) = .assertFailed [] line) ∧
    ((∀ c ∈ key, c ≠ ':') → line = key ++ ':' :: ' ' :: value →
      (key ≠ "data".toList →
          processLines parse (line :: rest) = processLines parse rest) ∧
      (key = "data".toList → value = "[DONE]".toList →
          processLines parse (line :: rest) = .done []) ∧
      (key = "data".toList → value ≠ "[DONE]".toList →
          processLines parse (line :: rest) =
            (processLines parse rest).consPayload (parse (pyStrip value)))) := by
  refine ⟨?_, ?_, ?_⟩
  · intro hblank
    simp [processLines, hblank]
  · intro hnblank hnosep
    rw [processLines, if_neg hnblank, if_pos (by simp [hnosep])]
  · intro hkey hline
    have hmem : (':' : Char) ∈ line := by
      rw [hline]
      exact List.mem_append.mpr (Or.inr (List.mem_cons_self _ _))
    have hnblank : ¬ pyStrip line = [] :=
      pyStrip_ne_nil_of_mem line ':' hmem (by decide)
    have hsep : pyContains (':' :: ' ' :: []) line = true := by
      have : line = key ++ (':' :: ' ' :: []) ++ value := by
        rw [hline]
        simp
      rw [this]
      exact pyContains_around _ _ _
    have hidx : line.findIdx (fun c => c == ':') = key.length := by
      rw [hline]
      exact findIdx_colon key (' ' :: value) hkey
    have htake : line.take (line.findIdx (fun c => c == ':')) = key := by
      rw [hidx, hline]
      simp
    have hdrop : line.drop (line.findIdx (fun c => c == ':') + 2) = value := by
      rw [hidx, hline]
      rw [show key.length + 2 = key.length + 2 from rfl]
      rw [← List.drop_drop]
      simp
    refine ⟨?_, ?_, ?_⟩
    · intro hne
      rw [processLines, if_neg hnblank, if_neg (by simp [hsep])]
      simp only [htake, hdrop]
      rw [if_pos hne]
    · intro hk hv
      rw [processLines, if_neg hnblank, if_neg (by simp [hsep])]
      simp only [htake, hdrop]
      rw [if_neg (by simp [hk]), if_pos hv]
    · intro hk hv
      rw [processLines, if_neg hnblank, if_neg (by simp [hsep])]
      simp only [htake, hdrop]
      rw [if_neg (by simp [hk]), if_neg hv]

/-- Instantiation of `processLines_spec`: the line `data: 7` yields the
stripped value `7` and the stream then ends. -/
theorem processLines_spec_witness :
    processLines (fun s => s) ["data: 7".toList] =
      SSEOutcome.done ["7".toList] := by
  have h := ((processLines_spec (fun s => s) "data: 7".toList []
      "data".toList "7".toList).2.2 (by decide) (by decide)).2.2 rfl (by decide)
  exact h.trans (by decide)

/-- In a list of tool calls with pairwise-distinct ids, exactly one
entry carries a given member's id. -/
theorem countP_id_eq_one (tcs : List ToolCall) (tc : ToolCall)
    (hnodup : (tcs.map (fun t => t.id)).Nodup) (hmem : tc ∈ tcs) :
    tcs.countP (fun t => decide (t.id = tc.id)) = 1 := by
  induction tcs with
  | nil => cases hmem
  | cons a l ih =>
      simp only [List.map_cons, List.nodup_cons] at hnodup
      obtain ⟨hnotin, hnd⟩ := hnodup
      rcases List.mem_cons.mp hmem with heq | hmem2
      · rw [List.countP_cons]
        have h0 : l.countP (fun t => decide (t.id = tc.id)) = 0 := by
          rw [List.countP_eq_zero]
          intro t ht
          simp only [decide_eq_true_eq]
          intro habs
          rw [heq] at habs
          exact hnotin (habs ▸ List.mem_map_of_mem (fun t => t.id) ht)
        rw [h0, heq]
        simp
      · have hne : (a.id = tc.id) = False := by
          simp only [eq_iff_iff, iff_false]
          intro habs
          exact hnotin (habs ▸ List.mem_map_of_mem (fun t => t.id) hmem2)
        rw [List.countP_cons]
        simp [hne, ih hnd hmem2]

/-- C1: for a completed turn, every ToolCall of the assistant message
(their ids being distinct) gets exactly one tool-result message with a
matching call id among the appended results; every appended result is
tool-role (so it precedes any next assistant message); and a rejection
still terminates in an appended tool message whose synthetic content
carries the cancellation reason. -/
theorem turn_tool_results_unique (assistantMsg : LLMMessage)
    (outcome : ToolCall → ApprovalOutcome)
    (hnodup : (assistantMsg.tool_calls.map (fun tc => tc.id)).Nodup) :
    (∀ tc ∈ assistantMsg.tool_calls,
      (processToolCalls outcome assistantMsg.tool_calls).countP
        (fun m => decide (m.tool_call_id = some tc.id)) = 1) ∧
    (∀ m ∈ processToolCalls outcome assistantMsg.tool_calls,
      m.role = Role.tool) ∧
    (∀ tc ∈ assistantMsg.tool_calls, ∀ reason,
      outcome tc = ApprovalOutcome.rejected reason →
      toolResultMessage tc (outcome tc) ∈
          processToolCalls outcome assistantMsg.tool_calls ∧
      (toolResultMessage tc (outcome tc)).content = some reason) := by
  refine ⟨?_, ?_, ?_⟩
  · intro tc htc
    unfold processToolCalls
    rw [List.countP_map]
    have heq : ∀ t : ToolCall,
        ((fun m : LLMMessage => decide (m.tool_call_id = some tc.id)) ∘
          (fun t => toolResultMessage t (outcome t))) t =
        (fun t : ToolCall => decide (t.id = tc.id)) t := by
      intro t
      simp [toolResultMessage]
    rw [List.countP_congr (fun t _ => by rw [heq t])]
    exact countP_id_eq_one assistantMsg.tool_calls tc hnodup htc
  · intro m hm
    obtain ⟨tc, _, hval⟩ := List.mem_map.mp hm
    rw [← hval]
    rfl
  · intro tc htc reason hrej
    constructor
    · exact List.mem_map_of_mem (fun t => toolResultMessage t (outcome t)) htc
    · simp [toolResultMessage, hrej]

/-- Instantiation of `turn_tool_results_unique`: a single rejected tool
call still yields exactly one matching tool-result message. -/
theorem turn_tool_results_unique_witness :
    (processToolCalls (fun _ => ApprovalOutcome.rejected "Operation cancelled by user")
        [ToolCall.mk "call_1" none (FunctionCall.mk "edit" "x")]).countP
      (fun m => decide (m.tool_call_id = some "call_1")) = 1 := by
  have h := (turn_tool_results_unique
      { role := Role.assistant,
        tool_calls := [ToolCall.mk "call_1" none (FunctionCall.mk "edit" "x")] }
      (fun _ => ApprovalOutcome.rejected "Operation cancelled by user")
      (by decide)).1 (ToolCall.mk "call_1" none (FunctionCall.mk "edit" "x"))
      (by decide)
  simpa using h

/-- C3: setting the mode to its current value is a no-op that preserves
the whole state, and in particular the system-prompt message object at
index 0; setting a different value replaces only index 0 with the
regenerated prompt, leaves the tail untouched, and adopts the mode. -/
theorem setMode_spec (st : AgentState) (m : AgentMode)
    (hsys : st.messages.head?.map (fun msg => msg.role) = some Role.system) :
    (m = st.mode →
      setMode st m = st ∧ (setMode st m).messages = st.messages) ∧
    (m ≠ st.mode →
      (setMode st m).messages.head? = some (systemMessage m) ∧
      (setMode st m).messages.tail = st.messages.tail ∧
      (setMode st m).mode = m) := by
  constructor
  · intro heq
    constructor <;> simp [setMode, heq]
  · intro hne
    refine ⟨?_, ?_, ?_⟩ <;> simp [setMode, hne]

/-- Instantiation of `setMode_spec`: re-setting INTERACTIVE mode returns
the state unchanged. -/
theorem setMode_spec_witness :
    setMode { mode := AgentMode.INTERACTIVE,
              messages := [systemMessage AgentMode.INTERACTIVE] }
      AgentMode.INTERACTIVE =
    { mode := AgentMode.INTERACTIVE,
      messages := [systemMessage AgentMode.INTERACTIVE] } := by
  exact ((setMode_spec
      { mode := AgentMode.INTERACTIVE,
        messages := [systemMessage AgentMode.INTERACTIVE] }
      AgentMode.INTERACTIVE (by decide)).1 rfl).1

/-- C4: with `max_turns = 1` and a model that always requests exactly
one tool call, the loop terminates after one assistant round trip in the
conversation-limit condition carrying the partial assistant text, and
the preserved history is exactly the system prompt plus 1 user + 1
assistant + 1 tool-result message — no second assistant call. -/
theorem max_turns_one_spec (respond : List LLMMessage → LLMMessage)
    (outcome : ToolCall → ApprovalOutcome) (mode : AgentMode)
    (prompt : String) (fuel : Nat) (tcall : ToolCall)
    (hfuel : 1 ≤ fuel)
    (hrole : (respond [systemMessage mode, userMessage prompt]).role = Role.assistant)
    (htc : (respond [systemMessage mode, userMessage prompt]).tool_calls = [tcall]) :
    act respond outcome (some 1) mode prompt fuel =
      LoopResult.conversationLimit
        [systemMessage mode, userMessage prompt,
          respond [systemMessage mode, userMessage prompt],
          toolResultMessage tcall (outcome tcall)]
        (respond [systemMessage mode, userMessage prompt]).content ∧
    ([systemMessage mode, userMessage prompt,
        respond [systemMessage mode, userMessage prompt],
        toolResultMessage tcall (outcome tcall)].countP
      (fun msg => decide (msg.role = Role.user)) = 1 ∧
     [systemMessage mode, userMessage prompt,
        respond [systemMessage mode, userMessage prompt],
        toolResultMessage tcall (outcome tcall)].countP
      (fun msg => decide (msg.role = Role.assistant)) = 1 ∧
     [systemMessage mode, userMessage prompt,
        respond [systemMessage mode, userMessage prompt],
        toolResultMessage tcall (outcome tcall)].countP
      (fun msg => decide (msg.role = Role.tool)) = 1) := by
  obtain ⟨f, rfl⟩ : ∃ f, fuel = f + 1 := ⟨fuel - 1, by omega⟩
  constructor
  · unfold act agentLoop
    simp only [htc]
    rw [if_neg (by simp)]
    rw [if_pos (by omega)]
    simp [processToolCalls]
  · have hs : (systemMessage mode).role = Role.system := rfl
    have hu : (userMessage prompt).role = Role.user := rfl
    have htr : (toolResultMessage tcall (outcome tcall)).role = Role.tool := rfl
    refine ⟨?_, ?_, ?_⟩ <;>
      simp [List.countP_cons, hs, hu, htr, hrole]

/-- Instantiation of `max_turns_one_spec` on a concrete always-tool-calling
model: one round trip, then the conversation-limit condition with the
partial text and the four-message history. -/
theorem max_turns_one_spec_witness :
    act (fun _ => { role := Role.assistant, content := some "partial",
                    tool_calls := [ToolCall.mk "c1" none (FunctionCall.mk "edit" "a")] })
      (fun _ => ApprovalOutcome.approved "done") (some 1)
      AgentMode.INTERACTIVE "fix" 1 =
    LoopResult.conversationLimit
      [systemMessage AgentMode.INTERACTIVE, userMessage "fix",
        { role := Role.assistant, content := some "partial",
          tool_calls := [ToolCall.mk "c1" none (FunctionCall.mk "edit" "a")] },
        toolResultMessage (ToolCall.mk "c1" none (FunctionCall.mk "edit" "a"))
          (ApprovalOutcome.approved "done")]
      (some "partial") := by
  exact (max_turns_one_spec
      (fun _ => { role := Role.assistant, content := some "partial",
                  tool_calls := [ToolCall.mk "c1" none (FunctionCall.mk "edit" "a")] })
      (fun _ => ApprovalOutcome.approved "done") AgentMode.INTERACTIVE "fix" 1
      (ToolCall.mk "c1" none (FunctionCall.mk "edit" "a"))
      (by omega) rfl rfl).1

/-- C5: the Plan Approval Gate's resolution decides the agent's next
mode before the turn continues — an approval carrying an execution mode
makes it the next agent mode — and a request-revision resolution keeps
the state and injects the reviewer's feedback as the submit_plan tool's
result content, keyed to the call id, so the model revises and calls
submit_plan again. -/
theorem plan_approval_spec (st : AgentState) (tc : ToolCall)
    (r : PlanStdinResponse) :
    (r.approved = true → ∀ m am, r.mode = some m →
      _mode_to_agent_mode m = some am →
      (handlePlanResolution st tc (plan_approval_callback (some r))).1.mode = am) ∧
    (r.approved = false → ∀ fb, r.feedback = some fb →
      (handlePlanResolution st tc (plan_approval_callback (some r))).1 = st ∧
      (handlePlanResolution st tc (plan_approval_callback (some r))).2.content = some fb ∧
      (handlePlanResolution st tc (plan_approval_callback (some r))).2.tool_call_id =
        some tc.id ∧
      (handlePlanResolution st tc (plan_approval_callback (some r))).2.role =
        Role.tool) := by
  have hmode : ∀ m', (setMode st m').mode = m' := by
    intro m'
    by_cases h : m' = st.mode
    · simp [setMode, h]
    · simp [setMode, h]
  constructor
  · intro ha m am hm ham
    simp [plan_approval_callback, ha, hm, handlePlanResolution, ham, hmode]
  · intro ha fb hfb
    refine ⟨?_, ?_, ?_, ?_⟩ <;>
      simp [plan_approval_callback, ha, hfb, handlePlanResolution, toolResultMessage]

/-- Instantiation of `plan_approval_spec`: a request-revision resolution
injects the reviewer's feedback as the tool's result content. -/
theorem plan_approval_spec_witness :
    (handlePlanResolution { mode := AgentMode.PLAN, messages := [] }
        (ToolCall.mk "c1" none (FunctionCall.mk "submit_plan" "p"))
        (plan_approval_callback
          (some { approved := false, mode := none,
                  feedback := some "add tests" }))).2.content =
      some "add tests" := by
  exact ((plan_approval_spec { mode := AgentMode.PLAN, messages := [] }
      (ToolCall.mk "c1" none (FunctionCall.mk "submit_plan" "p"))
      { approved := false, mode := none, feedback := some "add tests" }).2
      rfl "add tests" rfl).2.1

/-- C6: compaction is idempotent on already-compacted input — a second
compact with no new messages in between yields a history with the same
message count — and both results preserve the leading system message
(the head of the history). -/
theorem compact_idempotent (threshold : Nat)
    (summarize : List LLMMessage → String) (history : List LLMMessage) :
    (compact threshold summarize (compact threshold summarize history)).length =
      (compact threshold summarize history).length ∧
    (compact threshold summarize history).head? = history.head? ∧
    (compact threshold summarize (compact threshold summarize history)).head? =
      history.head? := by
  cases history with
  | nil => simp [compact]
  | cons sys rest =>
      by_cases hle : rest.length ≤ threshold
      · simp [compact, hle]
      · have hlen : (rest.drop (rest.length - (threshold - 1))).length =
            threshold - 1 := by
          rw [List.length_drop]
          omega
        have hc1 : compact threshold summarize (sys :: rest) =
            sys :: ({ role := Role.assistant, content := some (summarize rest) } : LLMMessage) :: rest.drop (rest.length - (threshold - 1)) := by
          simp only [compact, if_neg hle]
        by_cases ht : 1 ≤ threshold
        · have hc2 : compact threshold summarize
              (sys :: ({ role := Role.assistant, content := some (summarize rest) } : LLMMessage) :: rest.drop (rest.length - (threshold - 1))) =
              sys :: ({ role := Role.assistant, content := some (summarize rest) } : LLMMessage) :: rest.drop (rest.length - (threshold - 1)) := by
            simp only [compact]
            rw [if_pos (by rw [List.length_cons, hlen]; omega)]
          rw [hc1, hc2]
          exact ⟨rfl, rfl, rfl⟩
        · have ht0 : threshold = 0 := by omega
          subst ht0
          have hd : rest.drop (rest.length - (0 - 1)) = ([] : List LLMMessage) := by
            simp
          rw [hd] at hc1
          have hc2 : compact 0 summarize
              (sys :: ({ role := Role.assistant, content := some (summarize rest) } : LLMMessage) :: []) =
              sys :: ({ role := Role.assistant, content := some (summarize [({ role := Role.assistant, content := some (summarize rest) } : LLMMessage)]) } : LLMMessage) :: [] := by
            simp only [compact]
            rw [if_neg (by simp)]
            simp
          rw [hc1, hc2]
          exact ⟨rfl, rfl, rfl⟩

/-- C7: invoking compaction while a turn is running surfaces a usage
error immediately and synchronously; the compaction is neither performed
nor queued and the app's state — including the conversation history —
is returned unchanged. -/
theorem compact_while_running_spec
    (compactFn : List LLMMessage → List LLMMessage) (app : AppState)
    (h : app.agent_running = true) :
    _compact_history compactFn app =
      (app, some "Cannot compact while agent is processing. Please wait.") := by
  simp [_compact_history, h]

/-- Instantiation of `compact_while_running_spec` on a running app. -/
theorem compact_while_running_spec_witness :
    _compact_history (fun msgs => msgs)
      { agent_running := true, agent_messages := some [] } =
    ({ agent_running := true, agent_messages := some [] },
      some "Cannot compact while agent is processing. Please wait.") := by
  exact compact_while_running_spec (fun msgs => msgs)
    { agent_running := true, agent_messages := some [] } rfl

end Vibe
